import Mathlib

/-!
Shallow embedding of `format_multiple_errors` (file
`format_multiple_errors/formatter.py`) over exact rationals.

Python floats are idealised as `ℚ`; `round` (banker's rounding,
round-half-to-even) is `pyRound`; `math.floor(math.log10 |x|)` is
`Int.log 10 |x|`; f-string fixed-point formatting is `formatFixed`
(an `Except`, since a negative precision is an invalid format
specifier and raises `ValueError`); functions that `raise` are
modelled in `Except String`.
-/

namespace FormatMultipleErrors

/-- Python `10 ** n` for an integer `n`, as an exact rational.
Written by cases for fast kernel evaluation; equals `(10 : ℚ) ^ z`. -/
def pow10 : ℤ → ℚ
  | Int.ofNat n => ((10 ^ n : ℕ) : ℚ)
  | Int.negSucc n => 1 / ((10 ^ (n + 1) : ℕ) : ℚ)

/-- Python `round(q)`: nearest integer, ties to even. -/
def halfEvenRound (q : ℚ) : ℤ :=
  if Int.fract q < 1 / 2 then ⌊q⌋
  else if 1 / 2 < Int.fract q then ⌊q⌋ + 1
  else if 2 ∣ ⌊q⌋ then ⌊q⌋ else ⌊q⌋ + 1

/-- Python `round(q, d)`: round to `d` decimal places
(nearest multiple of `10 ^ (-d)`, ties to even). -/
def pyRound (q : ℚ) (d : ℤ) : ℚ :=
  (halfEvenRound (q * pow10 d) : ℚ) / pow10 d

/-- Python `int(q)` (truncation toward zero) for a rational. -/
def pyInt (q : ℚ) : ℤ :=
  q.num / (q.den : ℤ)

/-- Fuelled floor logarithm base 10 on naturals: for `1 ≤ n ≤ fuel`,
`natLog10Aux fuel n` is the number of digits of `n` minus one. -/
def natLog10Aux : ℕ → ℕ → ℕ
  | 0, _ => 0
  | fuel + 1, n => if n < 10 then 0 else natLog10Aux fuel (n / 10) + 1

/-- Floor logarithm base 10 on naturals (digit count minus one). -/
def natLog10 (n : ℕ) : ℕ := natLog10Aux n n

/-- Fuelled ceiling logarithm base 10 on naturals: for `2 ≤ n ≤ fuel`,
`natClog10Aux fuel n` is the least `k` with `n ≤ 10 ^ k`. -/
def natClog10Aux : ℕ → ℕ → ℕ
  | 0, _ => 0
  | fuel + 1, n => if n ≤ 1 then 0 else natClog10Aux fuel ((n + 9) / 10) + 1

/-- Ceiling logarithm base 10 on naturals. -/
def natClog10 (n : ℕ) : ℕ := natClog10Aux n n

/-- `_first_digit` from the source: the position `floor(log10 |value|)` of
the first digit of the given value (`0` is the digit just before the
decimal point; digits to the right have negative position), and `0` for a
null value. -/
def firstDigit (value : ℚ) : ℤ :=
  if value = 0 then 0
  else if 1 ≤ |value| then (natLog10 ⌊|value|⌋₊ : ℤ)
  else -(natClog10 ⌈|value|⁻¹⌉₊ : ℤ)

instance {ε α : Type} [DecidableEq ε] [DecidableEq α] :
    DecidableEq (Except ε α) := fun a b =>
  match a, b with
  | .ok x, .ok y =>
    if h : x = y then .isTrue (by rw [h]) else .isFalse (by simp [h])
  | .error x, .error y =>
    if h : x = y then .isTrue (by rw [h]) else .isFalse (by simp [h])
  | .ok _, .error _ => .isFalse (by simp)
  | .error _, .ok _ => .isFalse (by simp)

/-- An element of `*errors`: a single number (symmetric uncertainty) or a
tuple of two numbers (upper, lower). -/
inductive Err where
  | single : ℚ → Err
  | pair : ℚ → ℚ → Err
deriving DecidableEq, Repr

/-- A rendered error: a formatted string, or a pair of formatted strings,
mirroring the shape of the corresponding `Err`. -/
inductive FErr where
  | single : String → FErr
  | pair : String → String → FErr
deriving DecidableEq, Repr

/-- The `value` argument: a plain number, an object with the
`nominal_value`/`std_dev` capability pair (uncertainties.UFloat), or an
object with the `value`/`dvalue` capability pair (pyerrors.Obs). -/
inductive Value where
  | num : ℚ → Value
  | withStdDev : ℚ → ℚ → Value
  | withDvalue : ℚ → ℚ → Value
deriving DecidableEq, Repr

/-- `_normalize_integrated_errors` from the source. -/
def normalizeIntegratedErrors (value : Value) (errors : List Err) :
    Except String (ℚ × List Err) :=
  match value with
  | .withStdDev n s => .ok (n, .single s :: errors)
  | .withDvalue v d =>
    if d = 0 then
      .error "pyerrors will not give an error before calling .gamma_method()"
    else .ok (v, .single d :: errors)
  | .num x => .ok (x, errors)

/-- `_flatten_errors` from the source: flatten pairs, drop members of
`exclude`. -/
def flattenErrors (errors : List Err) (exclude : List ℚ) : List ℚ :=
  match errors with
  | [] => []
  | .single x :: rest =>
    (if x ∈ exclude then [] else [x]) ++ flattenErrors rest exclude
  | .pair u l :: rest =>
    ((if u ∈ exclude then [] else [u]) ++ (if l ∈ exclude then [] else [l]))
      ++ flattenErrors rest exclude

/-- `_get_smallest` from the source: minimum of the flattened errors with
zeroes excluded, or `none` for an empty result. -/
def getSmallest (errors : List Err) : Option ℚ :=
  match flattenErrors errors [0] with
  | [] => none
  | x :: xs => some (xs.foldl min x)

/-- Python `max` over a list; raises on an empty sequence. -/
def listMax : List ℚ → Except String ℚ
  | [] => .error "max() arg is an empty sequence"
  | x :: xs => .ok (xs.foldl max x)

/-- Rescaling of one error by `10 ^ exponent` (the specialisation of
`_map_recursive(lambda error: error / 10**exponent, errors)` to one
element). -/
def scaleErr (exponent : ℤ) : Err → Err
  | .single x => .single (x / pow10 exponent)
  | .pair u l => .pair (u / pow10 exponent) (l / pow10 exponent)

/-- `_normalize` from the source. -/
def normalize (value : ℚ) (errors : List Err) :
    Except String (ℚ × List Err × ℤ) := do
  let exponent ←
    if value = 0 then (listMax (flattenErrors errors [])).map firstDigit
    else .ok (firstDigit value)
  .ok (value / pow10 exponent, errors.map (scaleErr exponent), exponent)

/-- `_get_length_value` from the source. -/
def getLengthValue (value : ℚ) (errors : List Err) (lengthControl : String) :
    Except String ℚ :=
  if lengthControl = "central" then .ok value
  else if lengthControl = "smallest" then
    match getSmallest errors with
    | none => .ok value
    | some l => .ok l
  else
    .error (lengthControl ++ " is not a value option for length_control."
      ++ "(Available options are \"smallest\", \"central\".)")

/-- One pass of the loop body of `_get_rounding_indices`: the first-digit
index, the decimal places, and the re-rounded length value. -/
def roundingPass (significantFigures : ℤ) (lengthValue : ℚ) : ℤ × ℤ × ℚ :=
  let f := firstDigit lengthValue
  let d := significantFigures - f - 1
  (f, d, pyRound lengthValue d)

/-- `_get_rounding_indices` from the source: the loop body run twice; the
pair computed by the second pass is returned. -/
def getRoundingIndices (lengthValue : ℚ) (significantFigures : ℤ) : ℤ × ℤ :=
  let p1 := roundingPass significantFigures lengthValue
  let p2 := roundingPass significantFigures p1.2.2
  (p2.1, p2.2.1)

/-- `_decimals_required` from the source. -/
def decimalsRequired (firstDigitIndex significantFigures : ℤ)
    (exponential : Bool) : Bool :=
  decide (firstDigitIndex + 1 < significantFigures) || exponential

/-- Left-pad a digit string with zeroes to length `d`. -/
def leftPadZeros (d : ℕ) (s : String) : String :=
  String.mk (List.replicate (d - s.length) '0') ++ s

/-- Decimal digit string for a nonnegative numerator `n`, with the decimal
point inserted `d` digits from the right (no point when `d = 0`). -/
def fixedDigits (n : ℕ) (d : ℕ) : String :=
  if d = 0 then Nat.repr n
  else Nat.repr (n / 10 ^ d) ++ "." ++ leftPadZeros d (Nat.repr (n % 10 ^ d))

/-- Python `f"{q:.0df}"` for `d ≥ 0`: fixed-point rendering with exactly
`d` fractional digits, rounding half to even, sign preserved. -/
def renderFixed (q : ℚ) (d : ℕ) : String :=
  (if q < 0 then "-" else "")
    ++ fixedDigits (halfEvenRound (|q| * pow10 d)).toNat d

/-- Python `f"{q:.0{dp}f}"`: a negative `dp` yields an invalid format
specifier and raises `ValueError`. -/
def formatFixed (q : ℚ) (dp : ℤ) : Except String String :=
  if dp < 0 then .error "Invalid format specifier"
  else .ok (renderFixed q dp.toNat)

/-- `_abbreviated_single_error` from the source. -/
def abbreviatedSingleError (error : ℚ) (decimalPlaces : ℤ) :
    Except String String :=
  if 1 ≤ error then formatFixed error decimalPlaces
  else .ok (toString (halfEvenRound (error * pow10 decimalPlaces)))

/-- `_unabbreviated_single_error` from the source. -/
def unabbreviatedSingleError (error : ℚ) (decimalPlaces : ℤ) :
    Except String String :=
  let roundedError := pyRound error decimalPlaces
  if roundedError = 0 then
    if decimalPlaces > 0 then .ok "0.0" else .ok "0"
  else formatFixed roundedError decimalPlaces

/-- The single-error formatter selected by `abbreviate` in
`_format_errors_only`. -/
def singleErrorFormatter (abbreviate : Bool) (error : ℚ) (decimalPlaces : ℤ) :
    Except String String :=
  if abbreviate then abbreviatedSingleError error decimalPlaces
  else unabbreviatedSingleError error decimalPlaces

/-- One error of `_format_errors_only`: the selected formatter applied to
each scalar leaf (a pair keeps its two-component shape). -/
def renderErr (decimalPlaces : ℤ) (abbreviate : Bool) : Err → Except String FErr
  | .single x => (singleErrorFormatter abbreviate x decimalPlaces).map .single
  | .pair u l => do
    let us ← singleErrorFormatter abbreviate u decimalPlaces
    let ls ← singleErrorFormatter abbreviate l decimalPlaces
    .ok (.pair us ls)

/-- `_format_errors_only` from the source. -/
def formatErrorsOnly (errors : List Err) (decimalPlaces : ℤ)
    (abbreviate : Bool) : Except String (List FErr) :=
  match errors with
  | [] => .ok []
  | e :: rest => do
    let fe ← renderErr decimalPlaces abbreviate e
    let frest ← formatErrorsOnly rest decimalPlaces abbreviate
    .ok (fe :: frest)

/-- `str(int(round(v, decimal_places)))` applied to each leaf of one error
(the no-decimals branch of `format_multiple_errors`). -/
def intRenderErr (decimalPlaces : ℤ) : Err → FErr
  | .single x => .single (toString (pyInt (pyRound x decimalPlaces)))
  | .pair u l =>
    .pair (toString (pyInt (pyRound u decimalPlaces)))
      (toString (pyInt (pyRound l decimalPlaces)))

/-- The per-error template dispatch of `_join_numbers`, keyed by
`(abbreviate, latex, is single-component)`. -/
def renderedError (abbreviate latex : Bool) : FErr → String
  | .single e =>
    if abbreviate then "(" ++ e ++ ")"
    else if latex then " \\pm " ++ e
    else " ± " ++ e
  | .pair u l =>
    match abbreviate, latex with
    | true, true => "(\x7b\x7d^\x7b" ++ u ++ "\x7d_\x7b" ++ l ++ "\x7d)"
    | true, false => "(+" ++ u ++ "/-" ++ l ++ ")"
    | false, true => " \x7b\x7d^\x7b+" ++ u ++ "\x7d_\x7b-" ++ l ++ "\x7d"
    | false, false => " (+" ++ u ++ " / -" ++ l ++ ")"

/-- `_join_numbers` from the source. -/
def joinNumbers (valueString : String) (errors : List FErr)
    (abbreviate latex : Bool) (exponent : ℤ) : String :=
  let elements := valueString :: errors.map (renderedError abbreviate latex)
  if exponent = 0 then String.join elements
  else
    let grouped := if abbreviate then elements else "(" :: (elements ++ [")"])
    let suffix :=
      if latex then " \\times 10^\x7b" ++ toString exponent ++ "\x7d"
      else "e" ++ toString exponent
    String.join (grouped ++ [suffix])

/-- `format_multiple_errors` from the source (defaults:
`lengthControl = "smallest"`, `significantFigures = 2`, and `false` for the
three flags). -/
def formatMultipleErrors (value : Value) (errors : List Err)
    (lengthControl : String) (significantFigures : ℤ)
    (abbreviate exponential latex : Bool) : Except String String := do
  let (v0, errs0) ← normalizeIntegratedErrors value errors
  let (v, errs, exponent) ←
    if exponential then normalize v0 errs0 else .ok (v0, errs0, 0)
  let lengthValue ← getLengthValue v errs lengthControl
  let (fdi, dp) := getRoundingIndices lengthValue significantFigures
  if decimalsRequired fdi significantFigures exponential then do
    let vs ← formatFixed v dp
    let fes ← formatErrorsOnly errs dp abbreviate
    .ok (joinNumbers vs fes abbreviate latex exponent)
  else
    .ok (joinNumbers (toString (pyInt (pyRound v dp)))
      (errs.map (intRenderErr dp)) abbreviate latex exponent)

/-- The renderer applied to the central value, by branch of
`format_multiple_errors`: the fixed-point f-string in the
decimals-required branch, `str(int(round(·, decimal_places)))` otherwise.
Its only parameters are the branch and one `decimal_places`. -/
def centralRenderAt (decReq : Bool) (dp : ℤ) (q : ℚ) : Except String String :=
  if decReq then formatFixed q dp else .ok (toString (pyInt (pyRound q dp)))

/-- The renderer applied to one error, by branch of
`format_multiple_errors`; its only parameters are the branch, the
`abbreviate` flag and one `decimal_places`. -/
def errRenderAt (decReq ab : Bool) (dp : ℤ) (e : Err) : Except String FErr :=
  if decReq then renderErr dp ab e else .ok (intRenderErr dp e)

/-- `errRenderAt` applied to every error of a list at one shared
`decimal_places`. -/
def renderAllAt (decReq ab : Bool) (dp : ℤ) : List Err → Except String (List FErr)
  | [] => .ok []
  | e :: rest => do
    let fe ← errRenderAt decReq ab dp e
    let frest ← renderAllAt decReq ab dp rest
    .ok (fe :: frest)

mutual
/-- A possibly nested structure of scalar leaves, Python lists and Python
tuples — the domain of `_map_recursive`. -/
inductive ND (α : Type) where
  | leaf : α → ND α
  | lst : NDList α → ND α
  | tup : NDList α → ND α
deriving DecidableEq, Repr

/-- The children of one nested container. -/
inductive NDList (α : Type) where
  | nil : NDList α
  | cons : ND α → NDList α → NDList α
deriving DecidableEq, Repr
end

mutual
/-- The handling of one child `datum` in the loop of `_map_recursive`:
a list child recurses (and stays a list), a tuple child recurses and is
wrapped in `list(...)`, and a scalar leaf gets `func` applied. -/
def mapChild (func : α → β) : ND α → ND β
  | .leaf x => .leaf (func x)
  | .lst xs => .lst (mapChildren func xs)
  | .tup xs => .lst (mapChildren func xs)

/-- The loop of `_map_recursive` over the children of `data`. -/
def mapChildren (func : α → β) : NDList α → NDList β
  | .nil => .nil
  | .cons d ds => .cons (mapChild func d) (mapChildren func ds)
end

/-- `_map_recursive(func, data)` from the source: iterate over `data`
(iterating a scalar raises `TypeError`), handle each child, and rebuild
with `type(data)`. -/
def mapRecursive (func : α → β) : ND α → Except String (ND β)
  | .leaf _ => .error "TypeError: object is not iterable"
  | .lst xs => .ok (.lst (mapChildren func xs))
  | .tup xs => .ok (.tup (mapChildren func xs))

mutual
/-- The container-type-preserving map (what the specification describes):
`func` on every leaf, every container kept as it is. -/
def ndMap (func : α → β) : ND α → ND β
  | .leaf x => .leaf (func x)
  | .lst xs => .lst (ndMapAll func xs)
  | .tup xs => .tup (ndMapAll func xs)

/-- `ndMap` over a list of children. -/
def ndMapAll (func : α → β) : NDList α → NDList β
  | .nil => .nil
  | .cons d ds => .cons (ndMap func d) (ndMapAll func ds)
end

mutual
/-- Convert every tuple in a nested structure to a list, keeping leaves,
lengths and nesting untouched. -/
def tupleToList : ND α → ND α
  | .leaf x => .leaf x
  | .lst xs => .lst (tupleToListAll xs)
  | .tup xs => .lst (tupleToListAll xs)

/-- `tupleToList` over a list of children. -/
def tupleToListAll : NDList α → NDList α
  | .nil => .nil
  | .cons d ds => .cons (tupleToList d) (tupleToListAll ds)
end

mutual
/-- Nesting depth of a nested structure (a leaf has depth 0). -/
def ndDepth : ND α → ℕ
  | .leaf _ => 0
  | .lst xs => ndDepthAll xs + 1
  | .tup xs => ndDepthAll xs + 1

/-- Maximum depth over a list of children. -/
def ndDepthAll : NDList α → ℕ
  | .nil => 0
  | .cons d ds => max (ndDepth d) (ndDepthAll ds)
end

mutual
/-- The scalar leaves of a nested structure, in order. -/
def ndLeaves : ND α → List α
  | .leaf x => [x]
  | .lst xs => ndLeavesAll xs
  | .tup xs => ndLeavesAll xs

/-- The scalar leaves of a list of children, in order. -/
def ndLeavesAll : NDList α → List α
  | .nil => []
  | .cons d ds => ndLeaves d ++ ndLeavesAll ds
end

theorem pow10_eq_zpow (z : ℤ) : pow10 z = (10 : ℚ) ^ z := by
  cases z with
  | ofNat n => simp [pow10]
  | negSucc n =>
    show 1 / ((10 ^ (n + 1) : ℕ) : ℚ) = _
    rw [Int.negSucc_eq, zpow_neg, one_div]
    congr 1
    rw [show ((n : ℤ) + 1) = ((n + 1 : ℕ) : ℤ) by push_cast; ring]
    rw [zpow_natCast]
    push_cast
    ring

theorem pow10_pos (z : ℤ) : 0 < pow10 z := by
  rw [pow10_eq_zpow]
  positivity

theorem pow10_mul (a b : ℤ) : pow10 a * pow10 b = pow10 (a + b) := by
  rw [pow10_eq_zpow, pow10_eq_zpow, pow10_eq_zpow]
  rw [zpow_add₀ (by norm_num : (10 : ℚ) ≠ 0)]

theorem halfEvenRound_intCast (n : ℤ) : halfEvenRound (n : ℚ) = n := by
  unfold halfEvenRound
  rw [Int.fract_intCast, Int.floor_intCast]
  norm_num

theorem floor_le_halfEvenRound (q : ℚ) :
    ⌊q⌋ ≤ halfEvenRound q ∧ halfEvenRound q ≤ ⌊q⌋ + 1 := by
  unfold halfEvenRound
  split
  · omega
  · split
    · omega
    · split <;> omega

theorem abs_sub_halfEvenRound_le (q : ℚ) : |q - halfEvenRound q| ≤ 1 / 2 := by
  have hfr : q - ⌊q⌋ = Int.fract q := Int.self_sub_floor q
  have h0 : 0 ≤ Int.fract q := Int.fract_nonneg q
  have h1 : Int.fract q < 1 := Int.fract_lt_one q
  unfold halfEvenRound
  split_ifs with ha hb hc <;> rw [abs_le] <;> push_cast <;> constructor <;> linarith

theorem halfEvenRound_neg (q : ℚ) : halfEvenRound (-q) = -halfEvenRound q := by
  by_cases hint : Int.fract q = 0
  · obtain ⟨n, rfl⟩ : ∃ n : ℤ, q = (n : ℚ) := by
      refine ⟨⌊q⌋, ?_⟩
      have h := Int.self_sub_floor q
      rw [hint, sub_eq_zero] at h
      exact h
    rw [← Int.cast_neg, halfEvenRound_intCast, halfEvenRound_intCast]
  · have hfr : Int.fract (-q) = 1 - Int.fract q := Int.fract_neg hint
    have hfl : ⌊-q⌋ = -⌊q⌋ - 1 := by
      have h1 : -q - ⌊-q⌋ = Int.fract (-q) := Int.self_sub_floor (-q)
      have h2 : q - ⌊q⌋ = Int.fract q := Int.self_sub_floor q
      have h3 : (⌊-q⌋ : ℚ) = ((-⌊q⌋ - 1 : ℤ) : ℚ) := by push_cast; linarith [hfr ▸ h1]
      exact_mod_cast h3
    have h0 : 0 ≤ Int.fract q := Int.fract_nonneg q
    have h1 : Int.fract q < 1 := Int.fract_lt_one q
    unfold halfEvenRound
    rw [hfr, hfl]
    split_ifs <;> first | omega | linarith

theorem pyInt_intCast (n : ℤ) : pyInt (n : ℚ) = n := by
  simp [pyInt]

theorem pyRound_neg (q : ℚ) (d : ℤ) : pyRound (-q) d = -pyRound q d := by
  unfold pyRound
  rw [neg_mul, halfEvenRound_neg]
  push_cast
  ring

theorem pyRound_of_mul_eq_int (q : ℚ) (d : ℤ) (n : ℤ)
    (h : q * pow10 d = (n : ℚ)) : pyRound q d = q := by
  unfold pyRound
  rw [h, halfEvenRound_intCast, ← h]
  field_simp [ne_of_gt (pow10_pos d)]

theorem natLog10Aux_bounds :
    ∀ fuel n, 1 ≤ n → n ≤ fuel →
      10 ^ natLog10Aux fuel n ≤ n ∧ n < 10 ^ (natLog10Aux fuel n + 1) := by
  intro fuel
  induction fuel with
  | zero => intro n h1 h2; omega
  | succ fuel ih =>
    intro n h1 h2
    show 10 ^ (if n < 10 then 0 else natLog10Aux fuel (n / 10) + 1) ≤ n ∧
      n < 10 ^ ((if n < 10 then 0 else natLog10Aux fuel (n / 10) + 1) + 1)
    split
    · constructor
      · simpa using h1
      · simpa using (by assumption : n < 10)
    · have h10 : 10 ≤ n := by omega
      obtain ⟨hlo, hhi⟩ := ih (n / 10) (by omega) (by omega)
      set k := natLog10Aux fuel (n / 10) with hk
      have e1 : 10 ^ (k + 1) = 10 ^ k * 10 := pow_succ 10 k
      have e2 : 10 ^ (k + 1 + 1) = 10 ^ (k + 1) * 10 := pow_succ 10 (k + 1)
      omega

theorem natLog10_bounds {n : ℕ} (h : 1 ≤ n) :
    10 ^ natLog10 n ≤ n ∧ n < 10 ^ (natLog10 n + 1) :=
  natLog10Aux_bounds n n h le_rfl

theorem natClog10Aux_one (fuel : ℕ) : natClog10Aux fuel 1 = 0 := by
  cases fuel <;> rfl

theorem natClog10Aux_bounds :
    ∀ fuel n, 2 ≤ n → n ≤ fuel →
      ∃ j, natClog10Aux fuel n = j + 1 ∧ 10 ^ j < n ∧ n ≤ 10 ^ (j + 1) := by
  intro fuel
  induction fuel with
  | zero => intro n h1 h2; omega
  | succ fuel ih =>
    intro n h1 h2
    show ∃ j, (if n ≤ 1 then 0 else natClog10Aux fuel ((n + 9) / 10) + 1)
      = j + 1 ∧ 10 ^ j < n ∧ n ≤ 10 ^ (j + 1)
    rw [if_neg (by omega)]
    by_cases hsmall : n ≤ 10
    · have hm : (n + 9) / 10 = 1 := by omega
      refine ⟨0, ?_, by norm_num; omega, by norm_num; omega⟩
      rw [hm, natClog10Aux_one fuel]
    · have hm2 : 2 ≤ (n + 9) / 10 := by omega
      have hmf : (n + 9) / 10 ≤ fuel := by omega
      obtain ⟨j, hj, hlo, hhi⟩ := ih ((n + 9) / 10) hm2 hmf
      refine ⟨j + 1, by rw [hj], ?_, ?_⟩
      · have e1 : 10 ^ (j + 1) = 10 ^ j * 10 := pow_succ 10 j
        omega
      · have e2 : 10 ^ (j + 1 + 1) = 10 ^ (j + 1) * 10 := pow_succ 10 (j + 1)
        omega

theorem pow10_natCast (k : ℕ) : pow10 (k : ℤ) = (10 : ℚ) ^ k := by
  rw [pow10_eq_zpow, zpow_natCast]

theorem firstDigit_bounds {q : ℚ} (h : q ≠ 0) :
    pow10 (firstDigit q) ≤ |q| ∧ |q| < pow10 (firstDigit q + 1) := by
  have habs : 0 < |q| := abs_pos.mpr h
  rw [firstDigit, if_neg h]
  by_cases hone : 1 ≤ |q|
  · rw [if_pos hone]
    have hfl : 1 ≤ ⌊|q|⌋₊ := Nat.le_floor (by exact_mod_cast hone)
    obtain ⟨hlo, hhi⟩ := natLog10_bounds hfl
    constructor
    · rw [pow10_natCast]
      calc ((10 : ℚ) ^ natLog10 ⌊|q|⌋₊)
          ≤ (⌊|q|⌋₊ : ℚ) := by exact_mod_cast hlo
        _ ≤ |q| := Nat.floor_le (abs_nonneg q)
    · rw [show (natLog10 ⌊|q|⌋₊ : ℤ) + 1 = ((natLog10 ⌊|q|⌋₊ + 1 : ℕ) : ℤ) by
        push_cast; ring, pow10_natCast]
      calc |q| < (⌊|q|⌋₊ : ℚ) + 1 := Nat.lt_floor_add_one |q|
        _ ≤ (10 : ℚ) ^ (natLog10 ⌊|q|⌋₊ + 1) := by exact_mod_cast hhi
  · rw [if_neg hone]
    push_neg at hone
    have ht : 1 < |q|⁻¹ := (one_lt_inv₀ habs).mpr hone
    have hceil : 2 ≤ ⌈|q|⁻¹⌉₊ := by
      have : 1 < ⌈|q|⁻¹⌉₊ := Nat.lt_ceil.mpr (by exact_mod_cast ht)
      omega
    obtain ⟨j, hj, hlo, hhi⟩ := natClog10Aux_bounds ⌈|q|⁻¹⌉₊ ⌈|q|⁻¹⌉₊ hceil le_rfl
    rw [show natClog10 ⌈|q|⁻¹⌉₊ = j + 1 from hj]
    have htpos : 0 < |q|⁻¹ := by positivity
    constructor
    · rw [show -((j + 1 : ℕ) : ℤ) = -(((j + 1 : ℕ) : ℤ)) by rfl, pow10_eq_zpow,
        zpow_neg, zpow_natCast]
      rw [inv_le_comm₀ (by positivity) habs]
      calc |q|⁻¹ ≤ (⌈|q|⁻¹⌉₊ : ℚ) := Nat.le_ceil _
        _ ≤ (10 : ℚ) ^ (j + 1) := by exact_mod_cast hhi
    · rw [show -((j + 1 : ℕ) : ℤ) + 1 = -(j : ℤ) by push_cast; ring, pow10_eq_zpow,
        zpow_neg, zpow_natCast]
      rw [lt_inv_comm₀ habs (by positivity)]
      have hlo' : (10 : ℚ) ^ j + 1 ≤ (⌈|q|⁻¹⌉₊ : ℚ) := by
        exact_mod_cast Nat.succ_le_of_lt hlo
      have hceil' := Nat.ceil_lt_add_one (le_of_lt htpos)
      linarith

theorem pow10_le_pow10 {a b : ℤ} (h : a ≤ b) : pow10 a ≤ pow10 b := by
  rw [pow10_eq_zpow, pow10_eq_zpow]
  exact zpow_le_zpow_right₀ (by norm_num) h

theorem firstDigit_eq_of_bounds {q : ℚ} {f : ℤ} (h : q ≠ 0)
    (h1 : pow10 f ≤ |q|) (h2 : |q| < pow10 (f + 1)) : firstDigit q = f := by
  obtain ⟨h1', h2'⟩ := firstDigit_bounds h
  rcases lt_trichotomy (firstDigit q) f with hlt | heq | hgt
  · have hm := pow10_le_pow10 (show firstDigit q + 1 ≤ f from by omega)
    linarith
  · exact heq
  · have hm := pow10_le_pow10 (show f + 1 ≤ firstDigit q from by omega)
    linarith

mutual
theorem mapChild_eq_tupleToList_ndMap (func : α → β) :
    (d : ND α) → mapChild func d = tupleToList (ndMap func d)
  | .leaf _ => rfl
  | .lst xs => congrArg ND.lst (mapChildren_eq_tupleToList_ndMap func xs)
  | .tup xs => congrArg ND.lst (mapChildren_eq_tupleToList_ndMap func xs)

theorem mapChildren_eq_tupleToList_ndMap (func : α → β) :
    (xs : NDList α) → mapChildren func xs = tupleToListAll (ndMapAll func xs)
  | .nil => rfl
  | .cons d ds => by
    show NDList.cons (mapChild func d) (mapChildren func ds) = _
    rw [mapChild_eq_tupleToList_ndMap func d,
      mapChildren_eq_tupleToList_ndMap func ds]
    rfl
end

mutual
theorem ndDepth_mapChild (func : α → β) :
    (d : ND α) → ndDepth (mapChild func d) = ndDepth d
  | .leaf _ => rfl
  | .lst xs => congrArg (· + 1) (ndDepthAll_mapChildren func xs)
  | .tup xs => congrArg (· + 1) (ndDepthAll_mapChildren func xs)

theorem ndDepthAll_mapChildren (func : α → β) :
    (xs : NDList α) → ndDepthAll (mapChildren func xs) = ndDepthAll xs
  | .nil => rfl
  | .cons d ds => by
    show max (ndDepth (mapChild func d)) (ndDepthAll (mapChildren func ds)) = _
    rw [ndDepth_mapChild func d, ndDepthAll_mapChildren func ds]
    rfl
end

mutual
theorem ndLeaves_mapChild (func : α → β) :
    (d : ND α) → ndLeaves (mapChild func d) = (ndLeaves d).map func
  | .leaf _ => rfl
  | .lst xs => ndLeavesAll_mapChildren func xs
  | .tup xs => ndLeavesAll_mapChildren func xs

theorem ndLeavesAll_mapChildren (func : α → β) :
    (xs : NDList α) → ndLeavesAll (mapChildren func xs) = (ndLeavesAll xs).map func
  | .nil => rfl
  | .cons d ds => by
    show ndLeaves (mapChild func d) ++ ndLeavesAll (mapChildren func ds) = _
    rw [ndLeaves_mapChild func d, ndLeavesAll_mapChildren func ds]
    exact (List.map_append func _ _).symm
end

/-- C2: `format_multiple_errors(12345, 6789, (1011, 1213))` with all
keyword arguments at their defaults (`length_control="smallest"`,
`significant_figures=2`, `abbreviate=False`, `exponential=False`,
`latex=False`) returns exactly the string
`"12300 ± 6800 (+1000 / -1200)"`. -/
theorem claim_C2_default_scenario :
    formatMultipleErrors (.num 12345) [.single 6789, .pair 1011 1213]
      "smallest" 2 false false false = .ok "12300 ± 6800 (+1000 / -1200)" := by
  with_unfolding_all decide

/-- C9 counterexample: the claim says
`format_multiple_errors(1.0, 0.0999, significant_figures=2,
abbreviate=True)` returns a string different from `"1.00(10)"`; in fact
the two-pass algorithm returns exactly `"1.00(10)"`. -/
theorem claim_C9_counterexample :
    formatMultipleErrors (.num 1) [.single (999 / 10000)] "smallest" 2
      true false false = .ok "1.00(10)" := by
  with_unfolding_all decide

/-- C9 amended: on the boundary input `(1.0, 0.0999)` the first pass
computes `(first_digit_index, decimal_places) = (-2, 3)` and rounds
`0.0999` up to `0.1`; the second pass corrects the pair to `(-1, 2)`, and
the call returns exactly the naively expected string `"1.00(10)"` (the
`xfail`-marked expectation in the test suite in fact passes). -/
theorem claim_C9_amended :
    roundingPass 2 (999 / 10000) = (-2, 3, 1 / 10) ∧
    getRoundingIndices (999 / 10000) 2 = (-1, 2) ∧
    formatMultipleErrors (.num 1) [.single (999 / 10000)] "smallest" 2
      true false false = .ok "1.00(10)" :=
  ⟨by with_unfolding_all decide, by with_unfolding_all decide,
    by with_unfolding_all decide⟩

/-- C5 counterexample: the claim says the abbreviated renderer uses the
absolute-value threshold `|number| >= 1`; the source tests `number >= 1`,
so at `number = -2`, `decimal_places = 2` (with `|-2| >= 1`) it does not
render like full fixed-point rendering (`"-2.00"`) but as the bare
integer `"-200"`. -/
theorem claim_C5_counterexample :
    abbreviatedSingleError (-2) 2 = .ok "-200" ∧
    formatFixed (-2) 2 = .ok "-2.00" ∧
    abbreviatedSingleError (-2) 2 ≠ formatFixed (-2) 2 :=
  ⟨by with_unfolding_all decide, by with_unfolding_all decide,
    by with_unfolding_all decide⟩

/-- C5 amended: the abbreviated error renderer thresholds on
`number >= 1` (not on the absolute value): if `number >= 1` it renders
identically to full fixed-point rendering with `decimal_places`
fractional digits, and if `number < 1` it renders as the integer nearest
to `number × 10^decimal_places` (distance at most 1/2, ties to even) with
the decimal point dropped. -/
theorem claim_C5_amended (number : ℚ) (decimalPlaces : ℤ) :
    (1 ≤ number →
      abbreviatedSingleError number decimalPlaces =
        formatFixed number decimalPlaces) ∧
    (number < 1 → ∃ n : ℤ,
      abbreviatedSingleError number decimalPlaces = .ok (toString n) ∧
      |number * pow10 decimalPlaces - n| ≤ 1 / 2) := by
  constructor
  · intro h
    rw [abbreviatedSingleError, if_pos h]
  · intro h
    rw [abbreviatedSingleError, if_neg (not_le.mpr h)]
    exact ⟨halfEvenRound (number * pow10 decimalPlaces), rfl,
      abs_sub_halfEvenRound_le _⟩

/-- C5 witness: the amended statement applied at `number = 2` (full
rendering branch) and `number = 1/2` (digits-only branch). -/
theorem claim_C5_witness :
    (abbreviatedSingleError 2 3 = formatFixed 2 3) ∧
    (∃ n : ℤ, abbreviatedSingleError (1 / 2) 2 = .ok (toString n) ∧
      |(1 / 2 : ℚ) * pow10 2 - n| ≤ 1 / 2) :=
  ⟨(claim_C5_amended 2 3).1 (by norm_num),
    (claim_C5_amended (1 / 2) 2).2 (by norm_num)⟩

/-- C6 counterexample: the claim says `_map_recursive` preserves the
container type at every level; on the structure `[(2, 3)]` (a list
containing one tuple) the inner tuple comes back as a list, so the result
differs from the container-type-preserving map. -/
theorem claim_C6_counterexample :
    mapRecursive (fun q : ℚ => q)
        (ND.lst (.cons (ND.tup (.cons (.leaf 2) (.cons (.leaf 3) .nil))) .nil)) =
      .ok (ND.lst (.cons (ND.lst (.cons (.leaf 2) (.cons (.leaf 3) .nil))) .nil)) ∧
    mapRecursive (fun q : ℚ => q)
        (ND.lst (.cons (ND.tup (.cons (.leaf 2) (.cons (.leaf 3) .nil))) .nil)) ≠
      .ok (ndMap (fun q : ℚ => q)
        (ND.lst (.cons (ND.tup (.cons (.leaf 2) (.cons (.leaf 3) .nil))) .nil))) :=
  ⟨by decide, by decide⟩

/-- C6 amended: `_map_recursive(f, structure)` applies `f` to every
scalar leaf, preserves the nesting depth at every level and preserves the
top-level container type, but converts every tuple below the top level to
a list of the same length (so each error's scalar-vs-pair arity still
survives): each child is mapped exactly as by the container-preserving
map followed by tuple-to-list conversion. -/
theorem claim_C6_amended {α β : Type} (func : α → β) (xs : NDList α) :
    mapRecursive func (ND.lst xs) = .ok (ND.lst (mapChildren func xs)) ∧
    mapRecursive func (ND.tup xs) = .ok (ND.tup (mapChildren func xs)) ∧
    (∀ d : ND α,
      mapChild func d = tupleToList (ndMap func d) ∧
      ndDepth (mapChild func d) = ndDepth d ∧
      ndLeaves (mapChild func d) = (ndLeaves d).map func) :=
  ⟨rfl, rfl, fun d =>
    ⟨mapChild_eq_tupleToList_ndMap func d, ndDepth_mapChild func d,
      ndLeaves_mapChild func d⟩⟩

/-- C8: when the value carries the `value`/`dvalue` capability pair and
`dvalue = 0`, `format_multiple_errors` raises the ValueError before
producing any output; when `dvalue` is nonzero, the uncertainty is
prepended to the error list and the bare numeric `value` field replaces
the value. -/
theorem claim_C8_integrated_dvalue (v d : ℚ) (errors : List Err)
    (lengthControl : String) (significantFigures : ℤ) (ab ex lx : Bool) :
    (d = 0 →
      formatMultipleErrors (.withDvalue v d) errors lengthControl
          significantFigures ab ex lx =
        .error "pyerrors will not give an error before calling .gamma_method()") ∧
    (d ≠ 0 →
      normalizeIntegratedErrors (.withDvalue v d) errors =
        .ok (v, .single d :: errors)) := by
  constructor
  · intro h
    subst h
    rfl
  · intro h
    rw [normalizeIntegratedErrors, if_neg h]

/-- C8 witness: the zero-`dvalue` rejection at `(5, 0)` and the
prepending behaviour at `(5, 1/2)`. -/
theorem claim_C8_witness :
    formatMultipleErrors (.withDvalue 5 0) [] "smallest" 2 false false false =
      .error "pyerrors will not give an error before calling .gamma_method()" ∧
    normalizeIntegratedErrors (.withDvalue 5 (1 / 2)) [.single 3] =
      .ok (5, .single (1 / 2) :: [.single 3]) :=
  ⟨(claim_C8_integrated_dvalue 5 0 [] "smallest" 2 false false false).1 rfl,
    (claim_C8_integrated_dvalue 5 (1 / 2) [.single 3] "smallest" 2 false false
      false).2 (by norm_num)⟩

theorem pow10_one : pow10 1 = 10 := by norm_num [pow10]

/-- C4: for a nonzero value, `_normalize` divides the value and every
error leaf by the same power of ten, the result satisfies
`value' × 10^exponent == value` exactly, and `1 ≤ |value'| < 10`. -/
theorem claim_C4_normalize_round_trip (value : ℚ) (errors : List Err)
    (h : value ≠ 0) :
    ∃ exponent : ℤ,
      normalize value errors =
        .ok (value / pow10 exponent, errors.map (scaleErr exponent), exponent) ∧
      (value / pow10 exponent) * pow10 exponent = value ∧
      1 ≤ |value / pow10 exponent| ∧ |value / pow10 exponent| < 10 := by
  obtain ⟨hlo, hhi⟩ := firstDigit_bounds h
  have hp := pow10_pos (firstDigit value)
  refine ⟨firstDigit value, ?_, ?_, ?_, ?_⟩
  · simp only [normalize, if_neg h]
    rfl
  · field_simp
  · rw [abs_div, abs_of_pos hp]
    exact (one_le_div hp).mpr hlo
  · rw [abs_div, abs_of_pos hp, div_lt_iff₀ hp]
    calc |value| < pow10 (firstDigit value + 1) := hhi
      _ = pow10 (firstDigit value) * pow10 1 := (pow10_mul _ _).symm
      _ = 10 * pow10 (firstDigit value) := by rw [pow10_one]; ring

/-- C4 witness: the round-trip at `value = 314`, errors `(1, 2)` and `5`. -/
theorem claim_C4_witness :
    ∃ exponent : ℤ,
      normalize 314 [.pair 1 2, .single 5] =
        .ok (314 / pow10 exponent,
          [Err.pair 1 2, Err.single 5].map (scaleErr exponent), exponent) ∧
      ((314 : ℚ) / pow10 exponent) * pow10 exponent = 314 ∧
      1 ≤ |(314 : ℚ) / pow10 exponent| ∧ |(314 : ℚ) / pow10 exponent| < 10 :=
  claim_C4_normalize_round_trip 314 [.pair 1 2, .single 5] (by norm_num)

theorem exceptBind_ok {α β : Type} (a : α) (f : α → Except String β) :
    (Except.ok a : Except String α) >>= f = f a := rfl

theorem exceptBind_error {α β : Type} (e : String) (f : α → Except String β) :
    (Except.error e : Except String α) >>= f = .error e := rfl

/-- C10: with a plain number and zero error arguments (all other
arguments at their defaults), the smallest-error lookup yields absent,
precision falls back to the central value itself, and the returned string
is exactly the rendered central value alone — no ± sign, brackets, or
separators; for example `format_multiple_errors(12345.0)` returns
`"12000"`. -/
theorem claim_C10_zero_errors (q : ℚ) (sf : ℤ) :
    getSmallest [] = none ∧
    getLengthValue q [] "smallest" = .ok q ∧
    formatMultipleErrors (.num q) [] "smallest" sf false false false =
      (if decimalsRequired (getRoundingIndices q sf).1 sf false
       then formatFixed q (getRoundingIndices q sf).2
       else .ok (toString (pyInt (pyRound q (getRoundingIndices q sf).2)))) ∧
    formatMultipleErrors (.num 12345) [] "smallest" 2 false false false =
      .ok "12000" := by
  refine ⟨rfl, rfl, ?_, by with_unfolding_all decide⟩
  have h1 : getLengthValue q [] "smallest" = .ok q := rfl
  simp only [formatMultipleErrors, normalizeIntegratedErrors, exceptBind_ok,
    Bool.false_eq_true, if_false, h1]
  split
  · cases hf : formatFixed q (getRoundingIndices q sf).2 <;> rfl
  · rfl

theorem pyRound_zero (d : ℤ) : pyRound 0 d = 0 := by
  unfold pyRound
  rw [zero_mul, show (0 : ℚ) = ((0 : ℤ) : ℚ) by norm_num, halfEvenRound_intCast]
  norm_num

theorem firstDigit_zero : firstDigit 0 = 0 := by
  rw [firstDigit, if_pos rfl]

theorem pyRound_nonneg {q : ℚ} (h : 0 ≤ q) (d : ℤ) : 0 ≤ pyRound q d := by
  unfold pyRound
  apply div_nonneg _ (le_of_lt (pow10_pos d))
  have hx : (0 : ℤ) ≤ ⌊q * pow10 d⌋ :=
    Int.floor_nonneg.mpr (mul_nonneg h (le_of_lt (pow10_pos d)))
  exact_mod_cast le_trans hx (floor_le_halfEvenRound _).1

theorem abs_pyRound (q : ℚ) (d : ℤ) : |pyRound q d| = pyRound |q| d := by
  rcases le_or_lt 0 q with h | h
  · rw [abs_of_nonneg h, abs_of_nonneg (pyRound_nonneg h d)]
  · have h1 : 0 ≤ pyRound (-q) d := pyRound_nonneg (by linarith) d
    have h2 : pyRound q d ≤ 0 := by
      have := pyRound_neg q d
      linarith
    rw [abs_of_neg h, abs_of_nonpos h2, ← pyRound_neg]

theorem pow10_ofNonneg {z : ℤ} (h : 0 ≤ z) :
    pow10 z = ((10 ^ z.toNat : ℤ) : ℚ) := by
  cases z with
  | ofNat n => rw [show (Int.ofNat n).toNat = n from rfl]; push_cast [pow10]; ring
  | negSucc n => exact absurd h (not_le.mpr (Int.negSucc_lt_zero n))

/-- One pass of `_get_rounding_indices` on a nonzero value: the rounded
value is nonzero and sits on the `10^(-d)` grid, and its first-digit
index either is unchanged or grows by one, the latter exactly when the
rounding landed on the next power of ten. -/
theorem roundingPass_analysis (s : ℤ) (hs : 1 ≤ s) (q : ℚ) (hq : q ≠ 0) :
    pyRound q (s - firstDigit q - 1) ≠ 0 ∧
    (∃ n : ℤ,
      pyRound q (s - firstDigit q - 1) * pow10 (s - firstDigit q - 1) = (n : ℚ)) ∧
    (firstDigit (pyRound q (s - firstDigit q - 1)) = firstDigit q ∨
      (firstDigit (pyRound q (s - firstDigit q - 1)) = firstDigit q + 1 ∧
        |pyRound q (s - firstDigit q - 1)| = pow10 (firstDigit q + 1))) := by
  set f := firstDigit q with hf
  set d := s - f - 1 with hd
  have hp : 0 < pow10 d := pow10_pos d
  obtain ⟨hql, hqh⟩ := firstDigit_bounds hq
  set X := |q| * pow10 d with hX
  set N := halfEvenRound X with hN
  set m : ℤ := 10 ^ (s - 1).toNat with hm
  have hmq : pow10 (s - 1) = (m : ℚ) := pow10_ofNonneg (by omega)
  have hmpos : (0 : ℤ) < m := by positivity
  have hXlo : (m : ℚ) ≤ X := by
    rw [← hmq, show s - 1 = f + d by omega, ← pow10_mul]
    exact mul_le_mul_of_nonneg_right hql (le_of_lt hp)
  have hXhi : X < ((10 * m : ℤ) : ℚ) := by
    push_cast
    rw [← hmq, show (10 : ℚ) * pow10 (s - 1) = pow10 1 * pow10 (s - 1) by
      rw [pow10_one], pow10_mul, show (1 : ℤ) + (s - 1) = (f + 1) + d by omega,
      ← pow10_mul]
    exact mul_lt_mul_of_pos_right hqh hp
  have hNlo : m ≤ N := by
    have h1 : m ≤ ⌊X⌋ := Int.le_floor.mpr hXlo
    exact le_trans h1 (floor_le_halfEvenRound X).1
  have hNhi : N ≤ 10 * m := by
    have h1 : ⌊X⌋ < 10 * m := Int.floor_lt.mpr hXhi
    have h2 := (floor_le_halfEvenRound X).2
    omega
  have habs1 : |pyRound q d| = (N : ℚ) / pow10 d := by
    rw [abs_pyRound, pyRound, hN, hX]
  have hq1pos : 0 < |pyRound q d| := by
    rw [habs1]
    apply div_pos _ hp
    exact_mod_cast lt_of_lt_of_le hmpos hNlo
  have hq1ne : pyRound q d ≠ 0 := by
    intro h0
    rw [h0] at hq1pos
    simp at hq1pos
  refine ⟨hq1ne, ⟨halfEvenRound (q * pow10 d), ?_⟩, ?_⟩
  · rw [pyRound]
    field_simp
  · rcases lt_or_eq_of_le hNhi with hlt | heq
    · left
      apply firstDigit_eq_of_bounds hq1ne
      · rw [habs1, le_div_iff₀ hp, show pow10 f * pow10 d = pow10 (f + d) from
          pow10_mul f d, show f + d = s - 1 by omega, hmq]
        exact_mod_cast hNlo
      · rw [habs1, div_lt_iff₀ hp, show pow10 (f + 1) * pow10 d = pow10 (f + 1 + d)
          from pow10_mul _ d, show f + 1 + d = s by omega,
          show pow10 s = pow10 1 * pow10 (s - 1) by
            rw [pow10_mul]; congr 1; omega, pow10_one, hmq]
        exact_mod_cast hlt
    · right
      have habs2 : |pyRound q d| = pow10 (f + 1) := by
        rw [habs1, heq, div_eq_iff (ne_of_gt hp)]
        push_cast
        rw [← hmq,
          show pow10 (f + 1) * pow10 d = pow10 (f + 1 + d) from pow10_mul _ d,
          show f + 1 + d = s by omega,
          show pow10 s = pow10 1 * pow10 (s - 1) by rw [pow10_mul]; congr 1; omega,
          pow10_one]
      refine ⟨?_, habs2⟩
      apply firstDigit_eq_of_bounds hq1ne
      · rw [habs2]
      · rw [habs2]
        have h1 : pow10 (f + 2) = pow10 (f + 1) * 10 := by
          rw [show pow10 (f + 2) = pow10 (f + 1) * pow10 1 from by
            rw [pow10_mul]; congr 1; omega, pow10_one]
        have h2 := pow10_pos (f + 1)
        rw [show f + 1 + 1 = f + 2 by omega, h1]
        linarith

theorem thirdPass_firstDigit_eq (s : ℤ) (hs : 1 ≤ s) (lv : ℚ) :
    firstDigit (pyRound (pyRound lv (s - firstDigit lv - 1))
      (s - firstDigit (pyRound lv (s - firstDigit lv - 1)) - 1)) =
    firstDigit (pyRound lv (s - firstDigit lv - 1)) := by
  by_cases hlv : lv = 0
  · subst hlv
    simp [pyRound_zero, firstDigit_zero]
  · obtain ⟨hq1ne, ⟨n, hgrid⟩, hcases⟩ := roundingPass_analysis s hs lv hlv
    set f1 := firstDigit lv with hf1
    set q1 := pyRound lv (s - f1 - 1) with hq1
    rcases hcases with hf2 | ⟨hf2, habs⟩
    · rw [hf2, pyRound_of_mul_eq_int q1 (s - f1 - 1) n hgrid, hf2]
    · rw [hf2]
      set k := (s - 1).toNat with hk
      have hmq : pow10 (s - 1) = ((10 ^ k : ℤ) : ℚ) := pow10_ofNonneg (by omega)
      rcases (abs_eq (le_of_lt (pow10_pos (f1 + 1)))).mp habs with h | h
      · have hmul : q1 * pow10 (s - (f1 + 1) - 1) = ((10 ^ k : ℤ) : ℚ) := by
          rw [h, pow10_mul, show f1 + 1 + (s - (f1 + 1) - 1) = s - 1 by ring, hmq]
        rw [pyRound_of_mul_eq_int q1 _ (10 ^ k) hmul, hf2]
      · have hmul : q1 * pow10 (s - (f1 + 1) - 1) = ((-(10 ^ k) : ℤ) : ℚ) := by
          rw [h, neg_mul, pow10_mul,
            show f1 + 1 + (s - (f1 + 1) - 1) = s - 1 by ring, hmq]
          push_cast
          ring
        rw [pyRound_of_mul_eq_int q1 _ (-(10 ^ k)) hmul, hf2]

/-- C3: the two-pass rounding-index computation is stable: for every
length value and positive `significant_figures`, running the pass
(`first_digit_index := floor(log10 |length_value|)`;
`decimal_places := significant_figures - first_digit_index - 1`;
`length_value := round(length_value, decimal_places)`) a third time after
the two passes performed by `_get_rounding_indices` yields the identical
`(first_digit_index, decimal_places)` pair. -/
theorem claim_C3_two_pass_stable (lengthValue : ℚ) (significantFigures : ℤ)
    (hs : 1 ≤ significantFigures) :
    ∀ f1 d1 lv1, roundingPass significantFigures lengthValue = (f1, d1, lv1) →
    ∀ f2 d2 lv2, roundingPass significantFigures lv1 = (f2, d2, lv2) →
    ∀ f3 d3 lv3, roundingPass significantFigures lv2 = (f3, d3, lv3) →
      (f3, d3) = (f2, d2) ∧
      getRoundingIndices lengthValue significantFigures = (f2, d2) := by
  have key := thirdPass_firstDigit_eq significantFigures hs lengthValue
  intro f1 d1 lv1 h1 f2 d2 lv2 h2 f3 d3 lv3 h3
  simp only [roundingPass, Prod.mk.injEq] at h1 h2 h3
  obtain ⟨e1, e2, e3⟩ := h1
  obtain ⟨e4, e5, e6⟩ := h2
  obtain ⟨e7, e8, e9⟩ := h3
  subst e1 e2 e3
  subst e4 e5 e6
  subst e7 e8 e9
  refine ⟨?_, rfl⟩
  rw [key]

/-- C3 witness: the three passes at the boundary length value `0.0999`
with two significant figures: `(-2, 3)`, then `(-1, 2)`, then `(-1, 2)`
again. -/
theorem claim_C3_witness :
    ((-1 : ℤ), (2 : ℤ)) = (-1, 2) ∧
    getRoundingIndices (999 / 10000) 2 = (-1, 2) :=
  claim_C3_two_pass_stable (999 / 10000) 2 (by norm_num)
    (-2) 3 (1 / 10) (by with_unfolding_all decide)
    (-1) 2 (1 / 10) (by with_unfolding_all decide)
    (-1) 2 (1 / 10) (by with_unfolding_all decide)

theorem formatFixed_ok {dp : ℤ} (h : 0 ≤ dp) (q : ℚ) :
    formatFixed q dp = .ok (renderFixed q dp.toNat) := if_neg (not_lt.mpr h)

theorem singleErrorFormatter_isOk (ab : Bool) (e : ℚ) {dp : ℤ} (h : 0 ≤ dp) :
    ∃ s, singleErrorFormatter ab e dp = .ok s := by
  cases ab
  · show ∃ s, unabbreviatedSingleError e dp = .ok s
    rw [unabbreviatedSingleError]
    split_ifs with h1 h2
    · exact ⟨"0.0", rfl⟩
    · exact ⟨"0", rfl⟩
    · rw [formatFixed_ok h]
      exact ⟨_, rfl⟩
  · show ∃ s, abbreviatedSingleError e dp = .ok s
    rw [abbreviatedSingleError]
    split_ifs with h1
    · rw [formatFixed_ok h]
      exact ⟨_, rfl⟩
    · exact ⟨_, rfl⟩

theorem renderErr_isOk (ab : Bool) (e : Err) {dp : ℤ} (h : 0 ≤ dp) :
    ∃ fe, renderErr dp ab e = .ok fe := by
  cases e with
  | single x =>
    obtain ⟨s, hs⟩ := singleErrorFormatter_isOk ab x h
    exact ⟨.single s, by rw [renderErr, hs]; rfl⟩
  | pair u l =>
    obtain ⟨su, hu⟩ := singleErrorFormatter_isOk ab u h
    obtain ⟨sl, hl⟩ := singleErrorFormatter_isOk ab l h
    refine ⟨.pair su sl, ?_⟩
    rw [renderErr, hu, hl]
    rfl

theorem formatErrorsOnly_isOk (errors : List Err) (ab : Bool) {dp : ℤ}
    (h : 0 ≤ dp) : ∃ l, formatErrorsOnly errors dp ab = .ok l := by
  induction errors with
  | nil => exact ⟨[], rfl⟩
  | cons e rest ih =>
    obtain ⟨fe, hfe⟩ := renderErr_isOk ab e h
    obtain ⟨l, hl⟩ := ih
    refine ⟨fe :: l, ?_⟩
    rw [formatErrorsOnly, hfe, exceptBind_ok, hl, exceptBind_ok]

theorem getLengthValue_isOk (v : ℚ) (errors : List Err) {lc : String}
    (h : lc = "smallest" ∨ lc = "central") :
    ∃ lv, getLengthValue v errors lc = .ok lv := by
  rcases h with h | h <;> subst h
  · rw [getLengthValue, if_neg (by decide), if_pos rfl]
    cases getSmallest errors
    · exact ⟨v, rfl⟩
    · exact ⟨_, rfl⟩
  · rw [getLengthValue, if_pos rfl]
    exact ⟨v, rfl⟩

theorem getRoundingIndices_snd (lv : ℚ) (sf : ℤ) :
    (getRoundingIndices lv sf).2 = sf - (getRoundingIndices lv sf).1 - 1 := rfl

/-- C7 counterexample: the claim says the call returns a string for every
error list when `exponential=True` (excluding only a zero value with an
empty error list); at `value = 1`, `errors = (1000,)`,
`exponential=True` the derived `decimal_places` is `-2` and the f-string
format specifier `.0-2f` raises `ValueError` instead. -/
theorem claim_C7_counterexample :
    formatMultipleErrors (.num 1) [.single 1000] "smallest" 2 false true false =
      .error "Invalid format specifier" := by
  with_unfolding_all decide

/-- C7 amended: with a plain-number value, a valid `length_control` and
`exponential=False` the call always returns a string; with
`exponential=True` it returns a string provided the normalization step
succeeds and the derived `decimal_places` is nonnegative (a negative
`decimal_places` — a length-controlling value of `10^significant_figures`
or more after rescaling — makes the f-string format specifier invalid and
raises `ValueError`). -/
theorem claim_C7_amended_totality (value : ℚ) (errors : List Err)
    (lengthControl : String) (significantFigures : ℤ) (ab lx : Bool)
    (hlc : lengthControl = "smallest" ∨ lengthControl = "central") :
    (∃ s, formatMultipleErrors (.num value) errors lengthControl
      significantFigures ab false lx = .ok s) ∧
    (∀ v' errs' expo, normalize value errors = .ok (v', errs', expo) →
      ∀ lv, getLengthValue v' errs' lengthControl = .ok lv →
        0 ≤ (getRoundingIndices lv significantFigures).2 →
        ∃ s, formatMultipleErrors (.num value) errors lengthControl
          significantFigures ab true lx = .ok s) := by
  constructor
  · obtain ⟨lv, hlv⟩ := getLengthValue_isOk value errors hlc
    simp only [formatMultipleErrors, normalizeIntegratedErrors, exceptBind_ok,
      Bool.false_eq_true, if_false, hlv]
    split
    · rename_i hdec
      have hdp : 0 ≤ (getRoundingIndices lv significantFigures).2 := by
        simp only [decimalsRequired, Bool.or_false, decide_eq_true_eq] at hdec
        rw [getRoundingIndices_snd]
        omega
      obtain ⟨l, hl⟩ := formatErrorsOnly_isOk errors ab hdp
      rw [formatFixed_ok hdp, exceptBind_ok, hl, exceptBind_ok]
      exact ⟨_, rfl⟩
    · exact ⟨_, rfl⟩
  · intro v' errs' expo hnorm lv hlv hdp
    simp only [formatMultipleErrors, normalizeIntegratedErrors, exceptBind_ok,
      if_pos, hnorm, hlv]
    obtain ⟨l, hl⟩ := formatErrorsOnly_isOk errs' ab hdp
    simp only [decimalsRequired, Bool.or_true, if_pos, exceptBind_ok,
      formatFixed_ok hdp, hl]
    exact ⟨_, rfl⟩

/-- C7 witness: totality at `value = 5`, `errors = (7,)`, in both the
plain and the exponential mode. -/
theorem claim_C7_witness :
    (∃ s, formatMultipleErrors (.num 5) [.single 7] "smallest" 2
      false false false = .ok s) ∧
    (∃ s, formatMultipleErrors (.num 5) [.single 7] "smallest" 2
      false true false = .ok s) := by
  have h := claim_C7_amended_totality 5 [.single 7] "smallest" 2 false false
    (Or.inl rfl)
  exact ⟨h.1, h.2 5 [.single 7] 0 (by with_unfolding_all decide) 7
    (by with_unfolding_all decide) (by with_unfolding_all decide)⟩

theorem renderAllAt_true (ab : Bool) (dp : ℤ) (errors : List Err) :
    renderAllAt true ab dp errors = formatErrorsOnly errors dp ab := by
  induction errors with
  | nil => rfl
  | cons e rest ih =>
    show (do
        let fe ← renderErr dp ab e
        let frest ← renderAllAt true ab dp rest
        Except.ok (fe :: frest)) = _
    rw [ih]
    rfl

theorem renderAllAt_false (ab : Bool) (dp : ℤ) (errors : List Err) :
    renderAllAt false ab dp errors = .ok (errors.map (intRenderErr dp)) := by
  induction errors with
  | nil => rfl
  | cons e rest ih =>
    show (do
        let fe ← (Except.ok (intRenderErr dp e) : Except String FErr)
        let frest ← renderAllAt false ab dp rest
        Except.ok (fe :: frest)) = _
    rw [exceptBind_ok, ih, exceptBind_ok]
    rfl

/-- C1: every string returned by `format_multiple_errors` is assembled
from the central value and the errors rendered at one shared
`decimal_places` count — the central value and every error element
(scalar or pair) are rendered at that same `decimal_places`, with no
per-element independent choice of precision. -/
theorem claim_C1_uniform_precision (value : Value) (errors : List Err)
    (lengthControl : String) (significantFigures : ℤ) (ab ex lx : Bool)
    (s : String)
    (h : formatMultipleErrors value errors lengthControl significantFigures
      ab ex lx = .ok s) :
    ∃ (dp : ℤ) (decReq : Bool) (v' : ℚ) (errs' : List Err) (expo : ℤ)
      (vs : String) (fes : List FErr),
      centralRenderAt decReq dp v' = .ok vs ∧
      renderAllAt decReq ab dp errs' = .ok fes ∧
      s = joinNumbers vs fes ab lx expo := by
  cases hn : normalizeIntegratedErrors value errors with
  | error e =>
    rw [formatMultipleErrors, hn, exceptBind_error] at h
    exact absurd h (by simp)
  | ok p =>
    obtain ⟨v0, errs0⟩ := p
    rw [formatMultipleErrors, hn, exceptBind_ok] at h
    have hmain : ∀ (v1 : ℚ) (errs1 : List Err) (expo1 : ℤ),
        (do
          let lengthValue ← getLengthValue v1 errs1 lengthControl
          if decimalsRequired (getRoundingIndices lengthValue significantFigures).1
              significantFigures ex then do
            let vs ← formatFixed v1
              (getRoundingIndices lengthValue significantFigures).2
            let fes ← formatErrorsOnly errs1
              (getRoundingIndices lengthValue significantFigures).2 ab
            Except.ok (joinNumbers vs fes ab lx expo1)
          else
            Except.ok (joinNumbers (toString (pyInt (pyRound v1
                (getRoundingIndices lengthValue significantFigures).2)))
              (errs1.map (intRenderErr
                (getRoundingIndices lengthValue significantFigures).2)) ab lx
              expo1)) = .ok s →
        ∃ (dp : ℤ) (decReq : Bool) (v' : ℚ) (errs' : List Err) (expo : ℤ)
          (vs : String) (fes : List FErr),
          centralRenderAt decReq dp v' = .ok vs ∧
          renderAllAt decReq ab dp errs' = .ok fes ∧
          s = joinNumbers vs fes ab lx expo := by
      intro v1 errs1 expo1 hh
      cases hlv : getLengthValue v1 errs1 lengthControl with
      | error e =>
        rw [hlv, exceptBind_error] at hh
        exact absurd hh (by simp)
      | ok lv =>
        rw [hlv, exceptBind_ok] at hh
        split at hh
        · rename_i hdec
          cases hv : formatFixed v1 (getRoundingIndices lv significantFigures).2 with
          | error e =>
            rw [hv, exceptBind_error] at hh
            exact absurd hh (by simp)
          | ok vs =>
            rw [hv, exceptBind_ok] at hh
            cases hf : formatErrorsOnly errs1
                (getRoundingIndices lv significantFigures).2 ab with
            | error e =>
              rw [hf, exceptBind_error] at hh
              exact absurd hh (by simp)
            | ok fes =>
              rw [hf, exceptBind_ok] at hh
              refine ⟨(getRoundingIndices lv significantFigures).2, true, v1,
                errs1, expo1, vs, fes, hv, ?_, ?_⟩
              · rw [renderAllAt_true, hf]
              · exact (Except.ok.inj hh).symm
        · refine ⟨(getRoundingIndices lv significantFigures).2, false, v1,
            errs1, expo1, _, _, rfl, renderAllAt_false ab _ errs1, ?_⟩
          exact (Except.ok.inj hh).symm
    cases ex with
    | false => exact hmain v0 errs0 0 h
    | true =>
      cases hno : normalize v0 errs0 with
      | error e =>
        simp only [reduceIte, hno, exceptBind_error] at h
        exact Except.noConfusion h
      | ok p2 =>
        obtain ⟨v1, errs1, expo1⟩ := p2
        simp only [reduceIte, hno, exceptBind_ok] at h
        exact hmain v1 errs1 expo1 h

/-- C1 witness: the uniform-precision decomposition of the output
`"5.0 ± 7.0"` of the call at `value = 5`, `errors = (7,)`, defaults. -/
theorem claim_C1_witness :
    ∃ (dp : ℤ) (decReq : Bool) (v' : ℚ) (errs' : List Err) (expo : ℤ)
      (vs : String) (fes : List FErr),
      centralRenderAt decReq dp v' = .ok vs ∧
      renderAllAt decReq false dp errs' = .ok fes ∧
      "5.0 ± 7.0" = joinNumbers vs fes false false expo :=
  claim_C1_uniform_precision (.num 5) [.single 7] "smallest" 2 false false
    false "5.0 ± 7.0" (by with_unfolding_all decide)

end FormatMultipleErrors
